import Mathlib

/-!
Verification of the private-box envelope construction and parsing algorithm
(`src/private_box.rs`).

The two core operations, `encrypt` and `decrypt`, are embedded as pure Lean
functions over byte lists.  The external libsodium primitives
(`crypto_scalarmult`, `crypto_secretbox_easy`, `crypto_secretbox_open_easy`)
are black boxes in the source, so the embedding is parameterised by a
`Primitives` structure carrying them; the random values drawn by `encrypt`
(nonce, message key, one-time keypair) are passed explicitly in an
`EncryptRandomness` record, making `encrypt` deterministic given its random
inputs, exactly as the source is.

Rust `panic!`-style failures of `decrypt` (out-of-bounds `array_ref!` slices,
unsigned-subtraction overflow / out-of-bounds body access) are modelled by the
`DecryptOutcome.panics` constructor; normal returns by
`DecryptOutcome.returns`.

The `sodium_memzero` calls of the source are modelled separately as an event
trace (`encryptWipes`, `decryptWipes`): one entry per `sodium_memzero` call
executed, in program order.
-/

set_option maxRecDepth 100000

/-- Bytes are lists of naturals; every byte produced by the program is < 256. -/
abbrev Bytes : Type := List Nat

/-- `const MAX_RECIPIENTS : usize = 7;` -/
def MAX_RECIPIENTS : Nat := 7

/-- `const NONCE_NUM_BYTES: usize = 24;` -/
def NONCE_NUM_BYTES : Nat := 24

/-- `const KEY_NUM_BYTES: usize = 32;` -/
def KEY_NUM_BYTES : Nat := 32

/-- `const _KEY_NUM_BYTES: usize = KEY_NUM_BYTES + 1;` -/
def _KEY_NUM_BYTES : Nat := KEY_NUM_BYTES + 1

/-- `crypto_secretbox_MACBYTES` (libsodium): 16-byte authentication tag. -/
def crypto_secretbox_MACBYTES : Nat := 16

/-- `const START_BYTE_NUM : usize = 24 + 32;` -/
def START_BYTE_NUM : Nat := 24 + 32

/-- `const BOXED_KEY_SIZE_BYTES : usize = 32 + 1 + 16;` -/
def BOXED_KEY_SIZE_BYTES : Nat := 32 + 1 + 16

/-- The external libsodium primitives used by the source, as abstract
deterministic functions:
`crypto_scalarmult (secret, public) = shared secret`,
`crypto_secretbox_easy (message, nonce, key) = ciphertext with trailing tag`,
`crypto_secretbox_open_easy (ciphertext, nonce, key) = some plaintext` on
authentication success and `none` on failure (libsodium returns `-1` and
leaves the output buffer untouched). -/
structure Primitives where
  crypto_scalarmult : Bytes → Bytes → Bytes
  crypto_secretbox_easy : Bytes → Bytes → Bytes → Bytes
  crypto_secretbox_open_easy : Bytes → Bytes → Bytes → Option Bytes

/-- The random values drawn at the top of `encrypt` via `randombytes_buf` and
`crypto_box_keypair`: 24-byte `nonce`, 32-byte message `key`, and the one-time
keypair. -/
structure EncryptRandomness where
  nonce : Bytes
  key : Bytes
  one_time_pubkey : Bytes
  one_time_secretkey : Bytes

/-- `pub fn encrypt(plaintext: &[u8], recipients: &[[u8; 32]]) -> Vec<u8>`.

Follows the source line by line:
`_key = vec![cmp::min(recipients.len() as u8, MAX_RECIPIENTS as u8)]`
extended with the message key (the `as u8` cast reduces the length mod 256);
`boxed_key_for_recipients` is the `flat_map` over **all** recipients, sealing
`_key` under the per-recipient `crypto_scalarmult` shared secret with the
shared nonce; `boxed_message` seals the plaintext under the message key; the
result is `nonce ++ one_time_pubkey ++ boxed_key_for_recipients ++
boxed_message`. -/
def encrypt (P : Primitives) (rnd : EncryptRandomness) (plaintext : Bytes)
    (recipients : List Bytes) : Bytes :=
  let _key : Bytes := min (recipients.length % 256) MAX_RECIPIENTS :: rnd.key
  let boxed_key_for_recipients : Bytes :=
    (recipients.map fun recipient =>
      P.crypto_secretbox_easy _key rnd.nonce
        (P.crypto_scalarmult rnd.one_time_secretkey recipient)).flatten
  let boxed_message : Bytes := P.crypto_secretbox_easy plaintext rnd.nonce rnd.key
  rnd.nonce ++ rnd.one_time_pubkey ++ boxed_key_for_recipients ++ boxed_message

/-- The 49-byte chunk `array_ref![cyphertext, START_BYTE_NUM +
BOXED_KEY_SIZE_BYTES * i, BOXED_KEY_SIZE_BYTES]` examined at slot index `i`. -/
def chunkAt (cyphertext : Bytes) (i : Nat) : Bytes :=
  (cyphertext.drop (START_BYTE_NUM + BOXED_KEY_SIZE_BYTES * i)).take BOXED_KEY_SIZE_BYTES

/-- One iteration of the `for i in 0..MAX_RECIPIENTS` loop of `decrypt`.
State is `(num_recps, key, did_unbox)`, initially `(0, [0; 32], false)`.
The guard `(offset + BOXED_KEY_SIZE_BYTES) > (cyphertext.len() - 16)` skips
the index (`continue`) leaving the state unchanged; a successful
`crypto_secretbox_open_easy` overwrites all three state components with
`_key[0]`, `_key[1..33]` and `true`; a failed open leaves the state
unchanged. -/
def scanStep (P : Primitives) (cyphertext nonce my_key : Bytes)
    (st : Nat × Bytes × Bool) (i : Nat) : Nat × Bytes × Bool :=
  if START_BYTE_NUM + BOXED_KEY_SIZE_BYTES * i + BOXED_KEY_SIZE_BYTES >
      cyphertext.length - crypto_secretbox_MACBYTES then st
  else
    match P.crypto_secretbox_open_easy (chunkAt cyphertext i) nonce my_key with
    | some payload => (payload.headD 0, (payload.drop 1).take KEY_NUM_BYTES, true)
    | none => st

/-- The whole slot-scanning loop of `decrypt`: fold `scanStep` over the slot
indices `0, …, MAX_RECIPIENTS - 1`. -/
def scanSlots (P : Primitives) (cyphertext nonce my_key : Bytes) : Nat × Bytes × Bool :=
  (List.range MAX_RECIPIENTS).foldl (scanStep P cyphertext nonce my_key)
    (0, List.replicate KEY_NUM_BYTES 0, false)

/-- The Rust panics `decrypt` can hit: the `array_ref!` header slices for
inputs shorter than 56 bytes, and the unsigned-subtraction overflow /
out-of-bounds body access when `START_BYTE_NUM + BOXED_KEY_SIZE_BYTES *
num_recps + 16` exceeds the input length. -/
inductive PanicKind where
  | headerOutOfBounds
  | bodyOutOfBounds
deriving DecidableEq, Repr

/-- Result of one `decrypt` invocation: either a Rust panic or the returned
`Option<Vec<u8>>`. -/
inductive DecryptOutcome where
  | panics (k : PanicKind)
  | returns (r : Option Bytes)
deriving DecidableEq, Repr

/-- The body-opening step of `decrypt`'s `did_unbox == true` branch.  The
source **ignores the return code** of `crypto_secretbox_open_easy` here and
returns the `result` buffer unconditionally; on authentication failure
libsodium leaves the buffer untouched, so `result` stays the zero-filled
allocation `vec![0; boxed_msg_len - crypto_secretbox_MACBYTES]`. -/
def openBody (P : Primitives) (cyphertext nonce : Bytes) (num_recps : Nat)
    (key : Bytes) : Bytes :=
  match P.crypto_secretbox_open_easy
      (cyphertext.drop (START_BYTE_NUM + BOXED_KEY_SIZE_BYTES * num_recps)) nonce key with
  | some m => m
  | none =>
    List.replicate
      (cyphertext.length - (START_BYTE_NUM + BOXED_KEY_SIZE_BYTES * num_recps) -
        crypto_secretbox_MACBYTES) 0

/-- `pub fn decrypt(cyphertext: &[u8], secret_key: &[u8; 32]) -> Option<Vec<u8>>`.

`array_ref![cyphertext, 0, 24]` and `array_ref![cyphertext, 24, 32]` panic
when the input is shorter than `START_BYTE_NUM` bytes.  Otherwise `my_key =
crypto_scalarmult(secret_key, onetime_pk)` is derived and the slot loop
(`scanSlots`) runs.  If no slot ever opened, the result is `None`.  If a slot
opened, `offset = START_BYTE_NUM + BOXED_KEY_SIZE_BYTES * num_recps`;
`boxed_msg_len = cyphertext.len() - offset` underflows and
`vec![0; boxed_msg_len - crypto_secretbox_MACBYTES]` / `&cyphertext[offset]`
panic unless `offset + 16 ≤ cyphertext.len()`; otherwise the body is opened
(return code ignored, see `openBody`) and wrapped in `Some`. -/
def decrypt (P : Primitives) (cyphertext : Bytes) (secret_key : Bytes) : DecryptOutcome :=
  if cyphertext.length < START_BYTE_NUM then
    DecryptOutcome.panics PanicKind.headerOutOfBounds
  else
    match scanSlots P cyphertext (cyphertext.take NONCE_NUM_BYTES)
        (P.crypto_scalarmult secret_key
          ((cyphertext.drop NONCE_NUM_BYTES).take KEY_NUM_BYTES)) with
    | (num_recps, key, true) =>
      if cyphertext.length <
          START_BYTE_NUM + BOXED_KEY_SIZE_BYTES * num_recps + crypto_secretbox_MACBYTES then
        DecryptOutcome.panics PanicKind.bodyOutOfBounds
      else
        DecryptOutcome.returns
          (some (openBody P cyphertext (cyphertext.take NONCE_NUM_BYTES) num_recps key))
    | (_, _, false) => DecryptOutcome.returns none

/-- Names of the buffers the source passes to `sodium_memzero`.  The first
six occur in `encrypt`; the last three name the secret buffers of `decrypt`
(`my_key`, the 33-byte `_key` slot payload, and the recovered message `key`),
which the source never wipes. -/
inductive WipedBuffer where
  | skey (recipient_index : Nat)
  | one_time_secretkey
  | one_time_pubkey
  | key
  | nonce
  | count_and_key
  | my_key
  | slot_payload
  | recovered_key
deriving DecidableEq, Repr

/-- The `sodium_memzero` calls executed by one run of `encrypt`, in program
order: `skey` once inside the `flat_map` closure for every recipient, then
`one_time_secretkey`, `one_time_pubkey`, `key`, `nonce`, `_key` just before
returning.  `encrypt` has a single exit path. -/
def encryptWipes (recipients : List Bytes) : List WipedBuffer :=
  (List.range recipients.length).map WipedBuffer.skey ++
    [WipedBuffer.one_time_secretkey, WipedBuffer.one_time_pubkey, WipedBuffer.key,
      WipedBuffer.nonce, WipedBuffer.count_and_key]

/-- The `sodium_memzero` calls executed by one run of `decrypt`: the source
contains no `sodium_memzero` call in `decrypt`, so the trace is empty on
every input and every exit path. -/
def decryptWipes (_cyphertext _secret_key : Bytes) : List WipedBuffer := []

/-! ### Concrete model primitives for witnesses

`Primitives` is abstract in all general theorems; the following toy
instantiation (identity "encryption" plus a 16-byte tag depending on message,
nonce and key, and an additive key agreement) is used only to produce
concrete witnesses and counterexamples. -/

/-- Toy 16-byte authentication tag over message, nonce and key. -/
def toyMac (m n k : Bytes) : Bytes :=
  List.replicate 15 0 ++ [(m.sum + 2 * n.sum + 3 * k.sum + 5 * m.length) % 256]

/-- Toy seal: the message followed by its 16-byte tag. -/
def toySeal (m n k : Bytes) : Bytes := m ++ toyMac m n k

/-- Toy open: succeeds exactly when the trailing 16 bytes are the tag of the
leading bytes under this nonce and key. -/
def toyOpen (c n k : Bytes) : Option Bytes :=
  if 16 ≤ c.length ∧ c.drop (c.length - 16) = toyMac (c.take (c.length - 16)) n k then
    some (c.take (c.length - 16))
  else none

/-- Toy key agreement, constant 32-byte output determined by both inputs. -/
def toyScalar (s p : Bytes) : Bytes := List.replicate 32 ((s.sum + p.sum) % 256)

/-- The toy primitive bundle used by witnesses. -/
def toyPrims : Primitives := ⟨toyScalar, toySeal, toyOpen⟩

/-- A 32-byte value with first byte `b` and 31 zero bytes. -/
def mk32 (b : Nat) : Bytes := b :: List.replicate 31 0

/-- All-zero 24-byte nonce used by witnesses. -/
def nonce0 : Bytes := List.replicate 24 0

/-- Concrete 32-byte message key. -/
def key9 : Bytes := mk32 9

/-- Concrete one-time (ephemeral) secret key. -/
def ephSk : Bytes := mk32 1

/-- Concrete one-time (ephemeral) public key. -/
def ephPk : Bytes := mk32 2

/-- Secret key of recipient A; `toyScalar skA ephPk = toyScalar ephSk pkA`. -/
def skA : Bytes := mk32 3

/-- Public key of recipient A. -/
def pkA : Bytes := mk32 4

/-- Public key of recipient B. -/
def pkB : Bytes := mk32 10

/-- Secret key of an uninvolved party (not a recipient). -/
def skX : Bytes := mk32 20

/-- A second 32-byte message key, distinct from `key9`. -/
def keyAlt : Bytes := mk32 30

/-- Concrete randomness record for witness encryptions. -/
def rnd0 : EncryptRandomness := ⟨nonce0, key9, ephPk, ephSk⟩

/-- Eight-recipient list (all the same public key; only the length matters
for the length counterexample). -/
def recips8 : List Bytes := List.replicate 8 pkA

/-- Nine-recipient list, all slots openable by `skA`. -/
def recips9 : List Bytes := List.replicate 9 pkA

/-- Nine distinct recipients, `pkA` first; the others derive toy shared
secrets whose tags collide neither with recipient A's derived key nor with
the last recipient's. -/
def recips9d : List Bytes :=
  [pkA, mk32 10, mk32 13, mk32 14, mk32 15, mk32 17, mk32 18, mk32 22, mk32 19]

/-- Secret key of the recipient at position 9 (index 8) of `recips9d`:
`toyScalar skLate ephPk = toyScalar ephSk (mk32 19)`, so `skLate` corresponds
to the public key `mk32 19` exactly as `skA` corresponds to `pkA`. -/
def skLate : Bytes := mk32 18

/-- A maliciously constructed 121-byte envelope: genuine header, one slot
sealed (under the very shared secret `decrypt` will derive for `skA`) whose
payload claims `num_recps = 7`, then 16 padding bytes.  The slot opens, but
`56 + 49*7 + 16` far exceeds the envelope length. -/
def evilEnvelope : Bytes :=
  nonce0 ++ ephPk ++ toySeal (7 :: key9) nonce0 (List.replicate 32 5) ++
    List.replicate 16 0

/-- The witness envelope for recipient A alone: `encrypt` of `[0,1,2]`. -/
def encA : Bytes := encrypt toyPrims rnd0 [0, 1, 2] [pkA]

/-- `encA` with a single bit flipped in the last byte of the sealed body
(45 → 44 flips bit 0). -/
def encAtampered : Bytes := encA.dropLast ++ [44]

/-- `encA` with a single bit flipped in the first byte of its wrapped-key
slot (byte 56: 1 → 0 flips bit 0). -/
def encAslotTampered : Bytes := encA.take 56 ++ [0] ++ encA.drop 57

/-- Hand-built envelope in which slots 0 and 1 both open under recipient A's
derived shared secret, with different payloads: slot 0 claims
`num_recps = 5` / key `keyAlt`, slot 1 claims `num_recps = 2` / key `key9`;
the body (at the offset for `num_recps = 2`) is sealed under `key9`. -/
def dualSlotEnvelope : Bytes :=
  nonce0 ++ ephPk ++ toySeal (5 :: keyAlt) nonce0 (List.replicate 32 5) ++
    toySeal (2 :: key9) nonce0 (List.replicate 32 5) ++ toySeal [9, 9] nonce0 key9

/-! ### Constant values -/

theorem MAX_RECIPIENTS_eq : MAX_RECIPIENTS = 7 := rfl

theorem NONCE_NUM_BYTES_eq : NONCE_NUM_BYTES = 24 := rfl

theorem KEY_NUM_BYTES_eq : KEY_NUM_BYTES = 32 := rfl

theorem MACBYTES_eq : crypto_secretbox_MACBYTES = 16 := rfl

theorem START_BYTE_NUM_eq : START_BYTE_NUM = 56 := rfl

theorem BOXED_KEY_SIZE_BYTES_eq : BOXED_KEY_SIZE_BYTES = 49 := rfl

/-! ### List helpers -/

theorem take_append_len {α : Type} (l₁ l₂ : List α) (n : Nat) (h : l₁.length = n) :
    (l₁ ++ l₂).take n = l₁ := List.take_left' h

theorem drop_append_len {α : Type} (l₁ l₂ : List α) (n i : Nat) (h : l₁.length = n) :
    (l₁ ++ l₂).drop (n + i) = l₂.drop i := by
  subst h
  rw [← List.drop_drop, List.drop_left]

theorem flatten_length_const {α : Type} (ss : List (List α)) (L : Nat)
    (hL : ∀ s ∈ ss, s.length = L) : ss.flatten.length = L * ss.length := by
  induction ss with
  | nil => simp
  | cons s ss ih =>
    have hs : s.length = L := hL s (by simp)
    have ht : ss.flatten.length = L * ss.length := ih fun t ht => hL t (by simp [ht])
    simp only [List.flatten_cons, List.length_append, List.length_cons, hs, ht]
    ring

theorem flatten_map_chunk {α β : Type} (f : α → List β) (d : α) (R : List α)
    (tail : List β) (L j : Nat) (hL : ∀ r ∈ R, (f r).length = L) (hj : j < R.length) :
    (((R.map f).flatten ++ tail).drop (L * j)).take L = f (R.getD j d) := by
  induction R generalizing j tail with
  | nil => simp at hj
  | cons r R ih =>
    cases j with
    | zero =>
      simp only [List.map_cons, List.flatten_cons, List.getD_cons_zero, Nat.mul_zero,
        List.drop_zero, List.append_assoc]
      exact take_append_len _ _ _ (hL r (by simp))
    | succ j =>
      have hrw : L * (j + 1) = (f r).length + L * j := by rw [hL r (by simp)]; ring
      simp only [List.map_cons, List.flatten_cons, List.getD_cons_succ, List.append_assoc]
      rw [hrw, drop_append_len _ _ _ _ rfl]
      exact ih tail j (fun x hx => hL x (by simp [hx])) (by simpa using hj)

/-! ### Toy primitive laws -/

theorem toySeal_length : ∀ a n k : Bytes, (toySeal a n k).length = a.length + 16 := by
  intro a n k
  simp [toySeal, toyMac]

theorem toyOpen_toySeal : ∀ a n k : Bytes, toyOpen (toySeal a n k) n k = some a := by
  intro a n k
  have hl : (toySeal a n k).length = a.length + 16 := toySeal_length a n k
  unfold toyOpen
  have h1 : (toySeal a n k).length - 16 = a.length := by omega
  rw [h1]
  have h2 : (toySeal a n k).take a.length = a := by
    unfold toySeal
    exact take_append_len _ _ _ rfl
  have h3 : (toySeal a n k).drop a.length = toyMac a n k := by
    unfold toySeal
    exact List.drop_left' rfl
  rw [h2, h3]
  rw [if_pos ⟨by omega, rfl⟩]

/-! ### Structure of `encrypt` output -/

theorem encrypt_eq (P : Primitives) (rnd : EncryptRandomness) (m : Bytes) (R : List Bytes) :
    encrypt P rnd m R = rnd.nonce ++ (rnd.one_time_pubkey ++
      (((R.map fun r => P.crypto_secretbox_easy (min (R.length % 256) 7 :: rnd.key)
          rnd.nonce (P.crypto_scalarmult rnd.one_time_secretkey r)).flatten) ++
        P.crypto_secretbox_easy m rnd.nonce rnd.key)) := by
  simp only [encrypt, MAX_RECIPIENTS_eq, List.append_assoc]

theorem encrypt_slot_lengths (P : Primitives) (rnd : EncryptRandomness) (R : List Bytes)
    (hseal : ∀ a n k : Bytes, (P.crypto_secretbox_easy a n k).length = a.length + 16)
    (hk : rnd.key.length = 32) :
    ∀ s ∈ R.map fun r => P.crypto_secretbox_easy (min (R.length % 256) 7 :: rnd.key)
        rnd.nonce (P.crypto_scalarmult rnd.one_time_secretkey r), s.length = 49 := by
  intro s hs
  simp only [List.mem_map] at hs
  obtain ⟨r, _, rfl⟩ := hs
  rw [hseal]
  simp [hk]

theorem encrypt_length (P : Primitives) (rnd : EncryptRandomness) (m : Bytes) (R : List Bytes)
    (hseal : ∀ a n k : Bytes, (P.crypto_secretbox_easy a n k).length = a.length + 16)
    (hk : rnd.key.length = 32) (hn : rnd.nonce.length = 24)
    (hp : rnd.one_time_pubkey.length = 32) :
    (encrypt P rnd m R).length = 56 + 49 * R.length + m.length + 16 := by
  rw [encrypt_eq]
  simp only [List.length_append]
  rw [flatten_length_const _ 49 (encrypt_slot_lengths P rnd R hseal hk), hseal,
    List.length_map, hn, hp]
  omega

theorem encrypt_take_nonce (P : Primitives) (rnd : EncryptRandomness) (m : Bytes)
    (R : List Bytes) (hn : rnd.nonce.length = 24) :
    (encrypt P rnd m R).take 24 = rnd.nonce := by
  rw [encrypt_eq]
  exact take_append_len _ _ _ hn

theorem encrypt_pubkey (P : Primitives) (rnd : EncryptRandomness) (m : Bytes)
    (R : List Bytes) (hn : rnd.nonce.length = 24) (hp : rnd.one_time_pubkey.length = 32) :
    ((encrypt P rnd m R).drop 24).take 32 = rnd.one_time_pubkey := by
  rw [encrypt_eq, List.drop_left' hn]
  exact take_append_len _ _ _ hp

theorem encrypt_chunkAt (P : Primitives) (rnd : EncryptRandomness) (m : Bytes)
    (R : List Bytes) (j : Nat)
    (hseal : ∀ a n k : Bytes, (P.crypto_secretbox_easy a n k).length = a.length + 16)
    (hk : rnd.key.length = 32) (hn : rnd.nonce.length = 24)
    (hp : rnd.one_time_pubkey.length = 32) (hj : j < R.length) :
    chunkAt (encrypt P rnd m R) j =
      P.crypto_secretbox_easy (min (R.length % 256) 7 :: rnd.key) rnd.nonce
        (P.crypto_scalarmult rnd.one_time_secretkey (R.getD j [])) := by
  unfold chunkAt
  simp only [START_BYTE_NUM_eq, BOXED_KEY_SIZE_BYTES_eq]
  rw [encrypt_eq, (by omega : 56 + 49 * j = 24 + (32 + 49 * j)),
    drop_append_len _ _ _ _ hn, drop_append_len _ _ _ _ hp]
  exact flatten_map_chunk _ [] R _ 49 j (fun r _ => by rw [hseal]; simp [hk]) hj

theorem encrypt_drop_body (P : Primitives) (rnd : EncryptRandomness) (m : Bytes)
    (R : List Bytes)
    (hseal : ∀ a n k : Bytes, (P.crypto_secretbox_easy a n k).length = a.length + 16)
    (hk : rnd.key.length = 32) (hn : rnd.nonce.length = 24)
    (hp : rnd.one_time_pubkey.length = 32) :
    (encrypt P rnd m R).drop (56 + 49 * R.length) =
      P.crypto_secretbox_easy m rnd.nonce rnd.key := by
  rw [encrypt_eq, (by omega : 56 + 49 * R.length = 24 + (32 + 49 * R.length)),
    drop_append_len _ _ _ _ hn, drop_append_len _ _ _ _ hp]
  apply List.drop_left'
  rw [flatten_length_const _ 49 (encrypt_slot_lengths P rnd R hseal hk), List.length_map]

/-! ### The slot-scanning loop -/

theorem scanStep_skip (P : Primitives) (c nonce mk : Bytes) (st : Nat × Bytes × Bool)
    (i : Nat)
    (h : 56 + 49 * i + 49 > c.length - 16 ∨
      P.crypto_secretbox_open_easy (chunkAt c i) nonce mk = none) :
    scanStep P c nonce mk st i = st := by
  unfold scanStep
  simp only [START_BYTE_NUM_eq, BOXED_KEY_SIZE_BYTES_eq, MACBYTES_eq]
  split
  · rfl
  next hg =>
    rcases h with h | h
    · exact absurd h hg
    · rw [h]

theorem scanStep_hit (P : Primitives) (c nonce mk : Bytes) (st : Nat × Bytes × Bool)
    (i : Nat) (p : Bytes)
    (hg : 56 + 49 * i + 49 ≤ c.length - 16)
    (ho : P.crypto_secretbox_open_easy (chunkAt c i) nonce mk = some p) :
    scanStep P c nonce mk st i = (p.headD 0, (p.drop 1).take 32, true) := by
  unfold scanStep
  simp only [START_BYTE_NUM_eq, BOXED_KEY_SIZE_BYTES_eq, MACBYTES_eq, KEY_NUM_BYTES_eq]
  rw [if_neg (by omega), ho]

theorem foldl_scanStep_const (P : Primitives) (c nonce mk : Bytes) (l : List Nat)
    (st : Nat × Bytes × Bool)
    (h : ∀ k ∈ l, 56 + 49 * k + 49 > c.length - 16 ∨
      P.crypto_secretbox_open_easy (chunkAt c k) nonce mk = none) :
    l.foldl (scanStep P c nonce mk) st = st := by
  induction l generalizing st with
  | nil => rfl
  | cons k l ih =>
    rw [List.foldl_cons, scanStep_skip P c nonce mk st k (h k (by simp))]
    exact ih st fun x hx => h x (by simp [hx])

theorem scanSlots_last (P : Primitives) (c nonce mk : Bytes) (j : Nat) (p : Bytes)
    (hj : j < 7)
    (hg : 56 + 49 * j + 49 ≤ c.length - 16)
    (ho : P.crypto_secretbox_open_easy (chunkAt c j) nonce mk = some p)
    (hlater : ∀ k, j < k → k < 7 →
      56 + 49 * k + 49 > c.length - 16 ∨
      P.crypto_secretbox_open_easy (chunkAt c k) nonce mk = none) :
    scanSlots P c nonce mk = (p.headD 0, (p.drop 1).take 32, true) := by
  unfold scanSlots
  simp only [MAX_RECIPIENTS_eq, KEY_NUM_BYTES_eq]
  rw [(by omega : 7 = (j + 1) + (7 - (j + 1))), List.range_add, List.foldl_append]
  have hinner : ∀ st : Nat × Bytes × Bool,
      (List.range (j + 1)).foldl (scanStep P c nonce mk) st =
        (p.headD 0, (p.drop 1).take 32, true) := by
    intro st
    rw [List.range_succ, List.foldl_append]
    simp only [List.foldl_cons, List.foldl_nil]
    exact scanStep_hit P c nonce mk _ j p hg ho
  rw [hinner]
  apply foldl_scanStep_const
  intro k hkmem
  simp only [List.mem_map, List.mem_range] at hkmem
  obtain ⟨x, hx, rfl⟩ := hkmem
  exact hlater _ (by omega) (by omega)

theorem scanSlots_never (P : Primitives) (c nonce mk : Bytes)
    (h : ∀ k, k < 7 →
      56 + 49 * k + 49 > c.length - 16 ∨
      P.crypto_secretbox_open_easy (chunkAt c k) nonce mk = none) :
    scanSlots P c nonce mk = (0, List.replicate 32 0, false) := by
  unfold scanSlots
  simp only [MAX_RECIPIENTS_eq, KEY_NUM_BYTES_eq]
  exact foldl_scanStep_const P c nonce mk _ _ fun k hk => h k (List.mem_range.mp hk)

/-! ### Unfolding `decrypt` -/

theorem decrypt_of_scan_false (P : Primitives) (c sk : Bytes) (n0 : Nat) (k0 : Bytes)
    (h56 : 56 ≤ c.length)
    (hscan : scanSlots P c (c.take 24)
      (P.crypto_scalarmult sk ((c.drop 24).take 32)) = (n0, k0, false)) :
    decrypt P c sk = DecryptOutcome.returns none := by
  unfold decrypt
  simp only [NONCE_NUM_BYTES_eq, KEY_NUM_BYTES_eq, START_BYTE_NUM_eq,
    BOXED_KEY_SIZE_BYTES_eq, MACBYTES_eq]
  rw [if_neg (by omega), hscan]

theorem decrypt_of_scan_true (P : Primitives) (c sk : Bytes) (num : Nat) (key : Bytes)
    (h56 : 56 ≤ c.length)
    (hscan : scanSlots P c (c.take 24)
      (P.crypto_scalarmult sk ((c.drop 24).take 32)) = (num, key, true))
    (hlen : 56 + 49 * num + 16 ≤ c.length) :
    decrypt P c sk = DecryptOutcome.returns
      (some (openBody P c (c.take 24) num key)) := by
  unfold decrypt
  simp only [NONCE_NUM_BYTES_eq, KEY_NUM_BYTES_eq, START_BYTE_NUM_eq,
    BOXED_KEY_SIZE_BYTES_eq, MACBYTES_eq]
  rw [if_neg (by omega), hscan]
  show (if c.length < 56 + 49 * num + 16 then DecryptOutcome.panics PanicKind.bodyOutOfBounds
    else DecryptOutcome.returns (some (openBody P c (c.take 24) num key))) =
    DecryptOutcome.returns (some (openBody P c (c.take 24) num key))
  rw [if_neg (by omega)]

/-- When one slot of an `encrypt`-produced envelope opens under the scanner's
derived key (the recipient case) and every other scanned chunk fails, the
loop ends in `(min (|R| mod 256) 7, message key, true)`. -/
theorem scanSlots_encrypt (P : Primitives) (rnd : EncryptRandomness) (m : Bytes)
    (R : List Bytes) (sk : Bytes) (j : Nat)
    (hseal : ∀ a n k : Bytes, (P.crypto_secretbox_easy a n k).length = a.length + 16)
    (hopen : ∀ a n k : Bytes,
      P.crypto_secretbox_open_easy (P.crypto_secretbox_easy a n k) n k = some a)
    (hk : rnd.key.length = 32) (hn : rnd.nonce.length = 24)
    (hp : rnd.one_time_pubkey.length = 32)
    (hj : j < R.length) (hj7 : j < 7)
    (hdh : P.crypto_scalarmult sk rnd.one_time_pubkey =
      P.crypto_scalarmult rnd.one_time_secretkey (R.getD j []))
    (hfail : ∀ i, i < 7 → i ≠ j →
      P.crypto_secretbox_open_easy (chunkAt (encrypt P rnd m R) i) rnd.nonce
        (P.crypto_scalarmult sk rnd.one_time_pubkey) = none) :
    scanSlots P (encrypt P rnd m R) rnd.nonce
      (P.crypto_scalarmult sk rnd.one_time_pubkey) =
      (min (R.length % 256) 7, rnd.key, true) := by
  have hlen := encrypt_length P rnd m R hseal hk hn hp
  have h := scanSlots_last P (encrypt P rnd m R) rnd.nonce
    (P.crypto_scalarmult sk rnd.one_time_pubkey) j (min (R.length % 256) 7 :: rnd.key)
    hj7 (by omega)
    (by rw [encrypt_chunkAt P rnd m R j hseal hk hn hp hj, hdh]; exact hopen _ _ _)
    (fun k hk1 hk2 => Or.inr (hfail k hk2 (by omega)))
  rw [h]
  have h2 : ((min (R.length % 256) 7 :: rnd.key).drop 1).take 32 = rnd.key := by
    show rnd.key.take 32 = rnd.key
    rw [← hk]
    exact List.take_length rnd.key
  rw [h2]
  rfl

/-! ### Claims -/

/-- C1: for every plaintext `m` and recipient list `R` with `1 ≤ |R| ≤ 7`, and
every secret key `sk` corresponding to the `j`-th public key of `R` (the
correspondence is the Diffie-Hellman agreement hypothesis `hdh`),
`decrypt (encrypt m R) sk` returns `Some m`.  `hseal` and `hopen` are the
AEAD length and round-trip laws of the black-box primitives; `hfail` is the
AEAD authentication assumption that no other scanned 49-byte chunk opens
under this recipient's derived shared secret (holds with overwhelming
probability for the real primitives). -/
theorem C1_round_trip (P : Primitives) (rnd : EncryptRandomness) (m : Bytes)
    (R : List Bytes) (sk : Bytes) (j : Nat)
    (hseal : ∀ a n k : Bytes, (P.crypto_secretbox_easy a n k).length = a.length + 16)
    (hopen : ∀ a n k : Bytes,
      P.crypto_secretbox_open_easy (P.crypto_secretbox_easy a n k) n k = some a)
    (hk : rnd.key.length = 32) (hn : rnd.nonce.length = 24)
    (hp : rnd.one_time_pubkey.length = 32)
    (hR1 : 1 ≤ R.length) (hR7 : R.length ≤ 7) (hj : j < R.length)
    (hdh : P.crypto_scalarmult sk rnd.one_time_pubkey =
      P.crypto_scalarmult rnd.one_time_secretkey (R.getD j []))
    (hfail : ∀ i, i < 7 → i ≠ j →
      P.crypto_secretbox_open_easy (chunkAt (encrypt P rnd m R) i) rnd.nonce
        (P.crypto_scalarmult sk rnd.one_time_pubkey) = none) :
    decrypt P (encrypt P rnd m R) sk = DecryptOutcome.returns (some m) := by
  have hlen := encrypt_length P rnd m R hseal hk hn hp
  have hmin : min (R.length % 256) 7 = R.length := by omega
  have hscan := scanSlots_encrypt P rnd m R sk j hseal hopen hk hn hp hj (by omega)
    hdh hfail
  rw [hmin] at hscan
  rw [← encrypt_take_nonce P rnd m R hn, ← encrypt_pubkey P rnd m R hn hp] at hscan
  rw [decrypt_of_scan_true P (encrypt P rnd m R) sk R.length rnd.key (by omega) hscan
    (by omega)]
  have hbody : openBody P (encrypt P rnd m R) ((encrypt P rnd m R).take 24)
      R.length rnd.key = m := by
    unfold openBody
    simp only [START_BYTE_NUM_eq, BOXED_KEY_SIZE_BYTES_eq, MACBYTES_eq]
    rw [encrypt_take_nonce P rnd m R hn, encrypt_drop_body P rnd m R hseal hk hn hp,
      hopen]
  rw [hbody]

/-- C1 witness: the spec's concrete scenario, `[0,1,2]` encrypted to the two
recipients A and B; A's secret key recovers it. -/
theorem C1_round_trip_witness :
    decrypt toyPrims (encrypt toyPrims rnd0 [0, 1, 2] [pkA, pkB]) skA =
      DecryptOutcome.returns (some [0, 1, 2]) :=
  C1_round_trip toyPrims rnd0 [0, 1, 2] [pkA, pkB] skA 0 toySeal_length toyOpen_toySeal
    (by decide) (by decide) (by decide) (by decide) (by decide) (by decide) (by decide)
    (by decide)

/-- C2 counterexample: with eight recipients the envelope is 467 bytes long,
not the `56 + 49*min(8,7) + 3 + 16 = 418` the claim's formula gives — every
recipient gets a slot, the `min` caps only the count byte. -/
theorem C2_length_counterexample :
    (encrypt toyPrims rnd0 [0, 1, 2] recips8).length ≠
      56 + 49 * min recips8.length 7 + ([0, 1, 2] : Bytes).length + 16 := by decide

/-- C2 amended: the length of `encrypt m R` is `56 + 49*|R| + len(m) + 16`
for every recipient list (no `min`), given only the AEAD length law and the
fixed sizes of the random values. -/
theorem C2_length_amended (P : Primitives) (rnd : EncryptRandomness) (m : Bytes)
    (R : List Bytes)
    (hseal : ∀ a n k : Bytes, (P.crypto_secretbox_easy a n k).length = a.length + 16)
    (hk : rnd.key.length = 32) (hn : rnd.nonce.length = 24)
    (hp : rnd.one_time_pubkey.length = 32) :
    (encrypt P rnd m R).length = 56 + 49 * R.length + m.length + 16 :=
  encrypt_length P rnd m R hseal hk hn hp

/-- C2 witness: the amended formula at eight recipients and a 3-byte
plaintext. -/
theorem C2_length_amended_witness :
    (encrypt toyPrims rnd0 [0, 1, 2] recips8).length =
      56 + 49 * recips8.length + ([0, 1, 2] : Bytes).length + 16 :=
  C2_length_amended toyPrims rnd0 [0, 1, 2] recips8 toySeal_length (by decide)
    (by decide) (by decide)

/-- C3 counterexample: with nine recipients the envelope does not have the
7-slot length, and even the first recipient's secret key (which corresponds
to the first public key) fails to recover the plaintext. -/
theorem C3_truncation_counterexample :
    (encrypt toyPrims rnd0 [0, 1, 2] recips9).length ≠
      56 + 49 * 7 + ([0, 1, 2] : Bytes).length + 16 ∧
    decrypt toyPrims (encrypt toyPrims rnd0 [0, 1, 2] recips9) skA ≠
      DecryptOutcome.returns (some [0, 1, 2]) := by decide

/-- C3 amended: `encrypt` with `|R| = 9` produces an envelope with **nine**
49-byte slots (only the count byte is capped at 7).  A recipient among the
first seven does not recover `m`: their slot opens and reports `num_recps = 7`,
so the sealed body is looked up at offset `56 + 49*7` — inside the slot
region — where authentication fails; the ignored return code makes `decrypt`
hand back `Some` of the zero-filled buffer instead of `m`.  A recipient at
position 8 or 9 has their slot beyond the scanned indices 0–6, so whenever
their derived shared secret opens none of the seven scanned chunks (`hfailb`,
the AEAD forgery assumption, which holds for distinct recipient keys) they
get `None`. -/
theorem C3_no_truncation (P : Primitives) (rnd : EncryptRandomness) (m : Bytes)
    (R : List Bytes) (sk skb : Bytes) (j : Nat)
    (hseal : ∀ a n k : Bytes, (P.crypto_secretbox_easy a n k).length = a.length + 16)
    (hopen : ∀ a n k : Bytes,
      P.crypto_secretbox_open_easy (P.crypto_secretbox_easy a n k) n k = some a)
    (hk : rnd.key.length = 32) (hn : rnd.nonce.length = 24)
    (hp : rnd.one_time_pubkey.length = 32)
    (hR : R.length = 9) (hj : j < 7)
    (hdh : P.crypto_scalarmult sk rnd.one_time_pubkey =
      P.crypto_scalarmult rnd.one_time_secretkey (R.getD j []))
    (hfail : ∀ i, i < 7 → i ≠ j →
      P.crypto_secretbox_open_easy (chunkAt (encrypt P rnd m R) i) rnd.nonce
        (P.crypto_scalarmult sk rnd.one_time_pubkey) = none)
    (hbody : P.crypto_secretbox_open_easy ((encrypt P rnd m R).drop (56 + 49 * 7))
      rnd.nonce rnd.key = none)
    (hfailb : ∀ i, i < 7 →
      P.crypto_secretbox_open_easy (chunkAt (encrypt P rnd m R) i) rnd.nonce
        (P.crypto_scalarmult skb rnd.one_time_pubkey) = none) :
    (encrypt P rnd m R).length = 56 + 49 * 9 + m.length + 16 ∧
    decrypt P (encrypt P rnd m R) sk =
      DecryptOutcome.returns (some (List.replicate (49 * 2 + m.length) 0)) ∧
    decrypt P (encrypt P rnd m R) skb = DecryptOutcome.returns none := by
  have hlen := encrypt_length P rnd m R hseal hk hn hp
  have hmin : min (R.length % 256) 7 = 7 := by omega
  refine ⟨by omega, ?_, ?_⟩
  · have hscan := scanSlots_encrypt P rnd m R sk j hseal hopen hk hn hp (by omega) hj
      hdh hfail
    rw [hmin] at hscan
    rw [← encrypt_take_nonce P rnd m R hn, ← encrypt_pubkey P rnd m R hn hp] at hscan
    rw [decrypt_of_scan_true P (encrypt P rnd m R) sk 7 rnd.key (by omega) hscan
      (by omega)]
    have hbody2 : openBody P (encrypt P rnd m R) ((encrypt P rnd m R).take 24) 7
        rnd.key = List.replicate (49 * 2 + m.length) 0 := by
      unfold openBody
      simp only [START_BYTE_NUM_eq, BOXED_KEY_SIZE_BYTES_eq, MACBYTES_eq]
      rw [encrypt_take_nonce P rnd m R hn, hbody]
      show List.replicate ((encrypt P rnd m R).length - (56 + 49 * 7) - 16) 0 =
        List.replicate (49 * 2 + m.length) 0
      rw [(by omega : (encrypt P rnd m R).length - (56 + 49 * 7) - 16 =
        49 * 2 + m.length)]
    rw [hbody2]
  · apply decrypt_of_scan_false P _ skb 0 (List.replicate 32 0) (by omega)
    have hscanb := scanSlots_never P (encrypt P rnd m R) rnd.nonce
      (P.crypto_scalarmult skb rnd.one_time_pubkey) (fun k hk7 => Or.inr (hfailb k hk7))
    rw [← encrypt_take_nonce P rnd m R hn, ← encrypt_pubkey P rnd m R hn hp] at hscanb
    exact hscanb

/-- C3 witness: nine distinct recipients with A first; the envelope has the
nine-slot length, A receives `Some` of 101 zero bytes instead of the
plaintext, and `skLate` — the secret key of the recipient at position 9 —
receives `None`. -/
theorem C3_no_truncation_witness :
    (encrypt toyPrims rnd0 [0, 1, 2] recips9d).length =
      56 + 49 * 9 + ([0, 1, 2] : Bytes).length + 16 ∧
    decrypt toyPrims (encrypt toyPrims rnd0 [0, 1, 2] recips9d) skA =
      DecryptOutcome.returns
        (some (List.replicate (49 * 2 + ([0, 1, 2] : Bytes).length) 0)) ∧
    decrypt toyPrims (encrypt toyPrims rnd0 [0, 1, 2] recips9d) skLate =
      DecryptOutcome.returns none :=
  C3_no_truncation toyPrims rnd0 [0, 1, 2] recips9d skA skLate 0 toySeal_length
    toyOpen_toySeal (by decide) (by decide) (by decide) (by decide) (by decide)
    (by decide) (by decide) (by decide) (by decide)

/-- C4: inputs shorter than the 56-byte header make `decrypt` panic in the
`array_ref!` header slices instead of returning `None` (the claim and the
spec's step 1 require `None` for everything below 121 bytes); lengths in
`[56, 121)` do return `None` because every slot index is skipped by the
guard. -/
theorem C4_short_input_panics :
    decrypt toyPrims ([] : Bytes) skA = DecryptOutcome.panics PanicKind.headerOutOfBounds ∧
    decrypt toyPrims (List.replicate 55 0) skA =
      DecryptOutcome.panics PanicKind.headerOutOfBounds ∧
    decrypt toyPrims (List.replicate 56 0) skA = DecryptOutcome.returns none ∧
    decrypt toyPrims (List.replicate 120 0) skA = DecryptOutcome.returns none := by decide

/-- C5: tampering with a slot does give `None`, but tampering with the sealed
body does **not**: the slot still opens, the body's authentication failure is
ignored (`crypto_secretbox_open_easy`'s return code is dropped), and `decrypt`
returns `Some` of the zero-filled buffer.  Here the last byte of the
one-recipient envelope `encA` is 45 and flipping its lowest bit (45 → 44)
yields `Some [0,0,0]`, not `None`; flipping the lowest bit of slot byte 56
(1 → 0) yields `None` as the claim says. -/
theorem C5_body_auth_ignored :
    encA.getLastD 0 = 45 ∧
    decrypt toyPrims encA skA = DecryptOutcome.returns (some [0, 1, 2]) ∧
    encA.getD 56 0 = 1 ∧
    decrypt toyPrims encAslotTampered skA = DecryptOutcome.returns none ∧
    decrypt toyPrims encAtampered skA = DecryptOutcome.returns (some [0, 0, 0]) := by
  decide

/-- C6 counterexample: a malformed 20-byte input is not signalled by the same
`None` value — `decrypt` panics in the header slices, a distinguishable
outcome. -/
theorem C6_short_input_distinguishable :
    decrypt toyPrims (List.replicate 20 0) skX =
      DecryptOutcome.panics PanicKind.headerOutOfBounds := by decide

/-- C6 amended: when no scanned chunk of `encrypt m R` opens under the
non-recipient's derived shared secret (the AEAD forgery assumption, holding
with overwhelming probability), `decrypt` returns `None`; and malformed
inputs of length in `[56, 121)` produce that same `None` — but inputs
shorter than 56 bytes panic instead (see the counterexample). -/
theorem C6_non_recipient_none (P : Primitives) (rnd : EncryptRandomness) (m : Bytes)
    (R : List Bytes) (sk' c : Bytes)
    (hseal : ∀ a n k : Bytes, (P.crypto_secretbox_easy a n k).length = a.length + 16)
    (hk : rnd.key.length = 32) (hn : rnd.nonce.length = 24)
    (hp : rnd.one_time_pubkey.length = 32)
    (hfail : ∀ i, i < 7 →
      P.crypto_secretbox_open_easy (chunkAt (encrypt P rnd m R) i) rnd.nonce
        (P.crypto_scalarmult sk' rnd.one_time_pubkey) = none)
    (hc1 : 56 ≤ c.length) (hc2 : c.length < 121) :
    decrypt P (encrypt P rnd m R) sk' = DecryptOutcome.returns none ∧
    decrypt P c sk' = DecryptOutcome.returns none := by
  constructor
  · have hlen := encrypt_length P rnd m R hseal hk hn hp
    apply decrypt_of_scan_false P _ sk' 0 (List.replicate 32 0) (by omega)
    have hscan := scanSlots_never P (encrypt P rnd m R) rnd.nonce
      (P.crypto_scalarmult sk' rnd.one_time_pubkey) (fun k hk7 => Or.inr (hfail k hk7))
    rw [← encrypt_take_nonce P rnd m R hn, ← encrypt_pubkey P rnd m R hn hp] at hscan
    exact hscan
  · apply decrypt_of_scan_false P c sk' 0 (List.replicate 32 0) hc1
    apply scanSlots_never
    intro k _
    left
    omega

/-- C6 witness: the uninvolved key `skX` gets `None` from the two-recipient
envelope, and a malformed 100-byte input gets the very same `None`. -/
theorem C6_non_recipient_none_witness :
    decrypt toyPrims (encrypt toyPrims rnd0 [0, 1, 2] [pkA, pkB]) skX =
      DecryptOutcome.returns none ∧
    decrypt toyPrims (List.replicate 100 0) skX = DecryptOutcome.returns none :=
  C6_non_recipient_none toyPrims rnd0 [0, 1, 2] [pkA, pkB] skX
    (List.replicate 100 0) toySeal_length (by decide) (by decide) (by decide)
    (by decide) (by decide) (by decide)

/-- C7: the scan visits all slot indices without stopping at the first
success; the `num_recps` and message key used to locate and open the sealed
body come from the **last** slot that opened (index `j` here — slots before
`j` are unconstrained and may well have opened too), each later success
having overwritten the earlier state. -/
theorem C7_last_slot_wins (P : Primitives) (c sk : Bytes) (j : Nat) (p : Bytes)
    (hj : j < 7)
    (hguard : 56 + 49 * j + 49 ≤ c.length - 16)
    (hopenj : P.crypto_secretbox_open_easy (chunkAt c j) (c.take 24)
      (P.crypto_scalarmult sk ((c.drop 24).take 32)) = some p)
    (hlater : ∀ k, j < k → k < 7 →
      56 + 49 * k + 49 > c.length - 16 ∨
      P.crypto_secretbox_open_easy (chunkAt c k) (c.take 24)
        (P.crypto_scalarmult sk ((c.drop 24).take 32)) = none)
    (hbodyok : 56 + 49 * p.headD 0 + 16 ≤ c.length) :
    decrypt P c sk = DecryptOutcome.returns
      (some (openBody P c (c.take 24) (p.headD 0) ((p.drop 1).take 32))) := by
  have h56 : 56 ≤ c.length := by omega
  exact decrypt_of_scan_true P c sk (p.headD 0) ((p.drop 1).take 32) h56
    (scanSlots_last P c (c.take 24) (P.crypto_scalarmult sk ((c.drop 24).take 32)) j p
      hj hguard hopenj hlater) hbodyok

/-- C7 witness: in `dualSlotEnvelope` slot 0 opens with payload
`5 :: keyAlt` and slot 1 opens with payload `2 :: key9`; the result is
located and opened with slot 1's count and key. -/
theorem C7_last_slot_wins_witness :
    toyPrims.crypto_secretbox_open_easy (chunkAt dualSlotEnvelope 0)
      (dualSlotEnvelope.take 24)
      (toyPrims.crypto_scalarmult skA ((dualSlotEnvelope.drop 24).take 32)) =
      some (5 :: keyAlt) ∧
    decrypt toyPrims dualSlotEnvelope skA = DecryptOutcome.returns
      (some (openBody toyPrims dualSlotEnvelope (dualSlotEnvelope.take 24)
        ((2 :: key9 : Bytes).headD 0) (((2 :: key9 : Bytes).drop 1).take 32))) :=
  ⟨by decide, C7_last_slot_wins toyPrims dualSlotEnvelope skA 1 (2 :: key9)
    (by decide) (by decide) (by decide)
    (by intro k hk1 hk7
        left
        have h : dualSlotEnvelope.length = 172 := by decide
        omega)
    (by decide)⟩

/-- C8 counterexample: `decrypt` never wipes the buffer holding the derived
shared secret `my_key` (it performs no `sodium_memzero` call at all), so the
claim's parser half is false already on this input. -/
theorem C8_wipe_counterexample :
    WipedBuffer.my_key ∉ decryptWipes (List.replicate 130 0) skA := by decide

/-- C8 amended: the builder wipes each per-recipient derived shared secret
and, before returning, the one-time secret key, one-time public key, message
key, nonce and the 33-byte prefixed key buffer (`encrypt` has a single exit
path); the parser wipes nothing — its wipe trace is empty on every input,
leaving `my_key`, the slot payload buffer and the recovered message key
unwiped. -/
theorem C8_wipes_amended (R : List Bytes) (i : Nat) (c sk' : Bytes)
    (hi : i < R.length) :
    WipedBuffer.skey i ∈ encryptWipes R ∧
    WipedBuffer.one_time_secretkey ∈ encryptWipes R ∧
    WipedBuffer.one_time_pubkey ∈ encryptWipes R ∧
    WipedBuffer.key ∈ encryptWipes R ∧
    WipedBuffer.nonce ∈ encryptWipes R ∧
    WipedBuffer.count_and_key ∈ encryptWipes R ∧
    decryptWipes c sk' = [] := by
  refine ⟨?_, ?_, ?_, ?_, ?_, ?_, rfl⟩
  · unfold encryptWipes
    exact List.mem_append.mpr (Or.inl (List.mem_map.mpr ⟨i, List.mem_range.mpr hi, rfl⟩))
  all_goals
    unfold encryptWipes
  all_goals
    exact List.mem_append.mpr (Or.inr (by simp))

/-- C8 witness: the amended statement at a one-recipient list and a concrete
parser input. -/
theorem C8_wipes_amended_witness :
    WipedBuffer.skey 0 ∈ encryptWipes [pkA] ∧
    WipedBuffer.one_time_secretkey ∈ encryptWipes [pkA] ∧
    WipedBuffer.one_time_pubkey ∈ encryptWipes [pkA] ∧
    WipedBuffer.key ∈ encryptWipes [pkA] ∧
    WipedBuffer.nonce ∈ encryptWipes [pkA] ∧
    WipedBuffer.count_and_key ∈ encryptWipes [pkA] ∧
    decryptWipes (List.replicate 130 0) skA = [] :=
  C8_wipes_amended [pkA] 0 (List.replicate 130 0) skA (by decide)

/-- C9: `decrypt` is deterministic — it is a pure function of the ciphertext
and the secret key (given the deterministic libsodium primitives), so any two
invocations on equal arguments return equal results. -/
theorem C9_decrypt_deterministic (P : Primitives) (c sk c2 sk2 : Bytes)
    (hc : c = c2) (hsk : sk = sk2) :
    decrypt P c sk = decrypt P c2 sk2 := by
  rw [hc, hsk]

/-- C9 witness: two invocations on the same concrete input agree. -/
theorem C9_decrypt_deterministic_witness :
    decrypt toyPrims (List.replicate 200 7) skA = decrypt toyPrims (List.replicate 200 7) skA :=
  C9_decrypt_deterministic toyPrims (List.replicate 200 7) skA
    (List.replicate 200 7) skA rfl rfl

/-- C10: a maliciously constructed envelope whose single slot opens with a
count byte of 7 while the envelope is only 121 bytes long drives `decrypt`
into the unsigned-subtraction / out-of-bounds body computation — a Rust
panic — instead of returning `None`. -/
theorem C10_forged_count_panics :
    toyPrims.crypto_secretbox_open_easy (chunkAt evilEnvelope 0)
      (evilEnvelope.take 24)
      (toyPrims.crypto_scalarmult skA ((evilEnvelope.drop 24).take 32)) =
      some (7 :: key9) ∧
    evilEnvelope.length < 56 + 49 * 7 + 16 ∧
    decrypt toyPrims evilEnvelope skA =
      DecryptOutcome.panics PanicKind.bodyOutOfBounds := by decide
